import Mathlib

/-!
Verification of the TransferBench parallel transfer engine
(src/TransferBench.cpp) against its natural-language specification.

The development shallowly embeds the partitioning, reference-pattern,
parameter-merging, allocation, parsing, validation and timing logic of the
source file as executable Lean functions, and proves the specification
claims about them.  Machine integers are modelled as `Nat`/`Int` (with an
explicit modulus where C overflow matters), buffers as lists, float values
as an abstract type with an `Add` instance, and fatal `exit(1)` paths as
`Except.error` results.
-/

namespace TransferBench

/-- Ceiling division as the source computes it: `(a + b - 1) / b`, used for
`maxSubExecToUse` and `roundedN` in `Transfer::PrepareSubExecParams`. -/
def ceilDiv (a b : Nat) : Nat := (a + b - 1) / b

/-- One sub-executor work assignment (struct `SubExecParam`): the element
count `N` and the element offset of the unit's contiguous range.  The source
stores the offset as pointers `srcMem[i] + assigned + initOffset` and
`dstMem[i] + assigned + initOffset`; since `initOffset` is a uniform shift
applied to every buffer, the unit's range is characterised by `assigned`,
recorded here as `offset`. -/
structure SubExecParam where
  N : Nat
  offset : Nat
deriving DecidableEq

/-- Count chosen for one sub-executor: the loop body expression
`subExecLeft ? std::min(leftover, ((roundedN / subExecLeft) * targetMultiple)) : 0`
of `Transfer::PrepareSubExecParams`, where
`roundedN = (leftover + targetMultiple - 1) / targetMultiple` and the
division by `subExecLeft` is C integer (floor) division. -/
def subExecCount (G subExecLeft leftover : Nat) : Nat :=
  if subExecLeft = 0 then 0
  else min leftover (ceilDiv leftover G / subExecLeft * G)

/-- The partitioning loop of `Transfer::PrepareSubExecParams`.  `fuel` is the
number of remaining iterations (the C loop runs `numSubExecs` times), `i` the
loop index, `assigned` the running total of already-assigned elements.
`subExecLeft = max(0, maxUse - i)` is `maxUse - i` in `Nat` subtraction. -/
def prepareLoop (N G maxUse : Nat) : Nat → Nat → Nat → List SubExecParam
  | 0, _, _ => []
  | fuel+1, i, assigned =>
    let cnt := subExecCount G (maxUse - i) (N - assigned)
    ⟨cnt, assigned⟩ :: prepareLoop N G maxUse fuel (i+1) (assigned + cnt)

/-- `Transfer::PrepareSubExecParams` for a Transfer of `N` elements,
`S = numSubExecs` requested sub-executors and alignment granularity
`G = targetMultiple = ev.blockBytes / sizeof(float)` elements:
`maxSubExecToUse = min(ceil(N/G), S)`, then the loop over all `S`
sub-executors. -/
def prepareSubExecParams (N G S : Nat) : List SubExecParam :=
  prepareLoop N G (min (ceilDiv N G) S) S 0 0

/-- The literal reading of the specification's per-unit count formula
`min(remaining, ceil(remaining/G/subExecLeft)*G)`, with `ceil` applied to
the full real-number quotient `remaining / (G * subExecLeft)`.  Written from
the specification's words, to be compared with `subExecCount`, which is
translated from the source. -/
def specCountLiteral (G subExecLeft remaining : Nat) : Nat :=
  if subExecLeft = 0 then 0
  else min remaining (ceilDiv remaining (G * subExecLeft) * G)

/-! ## Reference pattern generation (`Transfer::PrepareReference`)

Float values are modelled by an abstract type `α` with an `Add` instance;
`PrepSrcValue` lives in the repository's header (not among the sources here)
and the specification only requires it to be a deterministic function of
`(sourceIndex, elementPosition)`, so it is an arbitrary function parameter
`f`.  `memsetElem` stands for the element value all of whose bytes equal
`MEMSET_CHAR`. -/

/-- Value of element `i` of the reference sequence of source buffer `b`:
the configured repeating fill pattern when `ev.fillPattern` is non-empty,
otherwise `PrepSrcValue(b, i)` (the `bufferIdx >= 0` branch of
`Transfer::PrepareReference`). -/
def srcRefValue {α : Type} (fillPattern : List α) (f : Nat → Nat → α) (b i : Nat) : α :=
  if h : 0 < fillPattern.length then
    fillPattern.get ⟨i % fillPattern.length, Nat.mod_lt i h⟩
  else f b i

/-- Reference sequence for source buffer `b` over `N` elements
(`Transfer::PrepareReference` with `bufferIdx = b ≥ 0` fills
`buffer[i]` for every `i < N`). -/
def prepareReferenceSrc {α : Type} (fillPattern : List α) (f : Nat → Nat → α)
    (b N : Nat) : List α :=
  (List.range N).map (srcRefValue fillPattern f b)

/-- The elementwise accumulation loop `buffer[i] += temp[i]` of
`Transfer::PrepareReference` over two buffers of equal length. -/
def addInto {α : Type} [Add α] (buffer temp : List α) : List α :=
  List.zipWith (· + ·) buffer temp

/-- Destination reference (`Transfer::PrepareReference` with
`bufferIdx = -1`): zero sources gives `memset(MEMSET_CHAR)` over the whole
buffer, modelled as every element equal to `memsetElem`; otherwise the
buffer starts as source 0's reference and the references of sources
`1 .. numSrcs-1` are added in elementwise, in order. -/
def prepareReferenceDst {α : Type} [Add α] (memsetElem : α) (fillPattern : List α)
    (f : Nat → Nat → α) (numSrcs N : Nat) : List α :=
  if numSrcs = 0 then List.replicate N memsetElem
  else
    (List.range (numSrcs - 1)).foldl
      (fun buffer k => addInto buffer (prepareReferenceSrc fillPattern f (k+1) N))
      (prepareReferenceSrc fillPattern f 0 N)

/-- The specification's description of the destination value for one or more
sources: element `i` is the elementwise sum of every source's reference
value at `i`, accumulated over source indices `0 .. numSrcs-1`.  Written
from the specification's words, to be compared with `prepareReferenceDst`. -/
def sumOfSourceReferences {α : Type} [Add α] (fillPattern : List α)
    (f : Nat → Nat → α) (numSrcs N : Nat) : List α :=
  (List.range N).map (fun i =>
    (List.range (numSrcs - 1)).foldl
      (fun v k => v + srcRefValue fillPattern f (k+1) i)
      (srcRefValue fillPattern f 0 i))

/-! ## Combined-stream parameter merging (`ExecuteTransfers`, GFX executors)

An executor group's Transfers are modelled by the list of their
`subExecParam` lists (`ts : List (List α)`, with `numSubExecs` equal to each
list's length, as after `subExecParam.resize(numSubExecs)`).  The merged
upload order is a list of `(transferIdx, subExecIdx)` pairs, the order in
which `tempSubExecParam.push_back(transfers[t].subExecParam[j])` happens. -/

/-- The three block-ordering policies of the source
(`ORDER_SEQUENTIAL`, `ORDER_INTERLEAVED`, `ORDER_RANDOM`). -/
inductive BlockOrder where
  | sequential
  | interleaved
  | random
deriving DecidableEq

/-- Parameter fetched for pair `p`: `transfers[p.1]->subExecParam[p.2]`. -/
def lookupParam {α : Type} (ts : List (List α)) (d : α) (p : Nat × Nat) : α :=
  (ts.getD p.1 []).getD p.2 d

/-- Push order of the sequential branch: each Transfer's units placed
contiguously, in Transfer order. -/
def seqOrder (sizes : List Nat) : List (Nat × Nat) :=
  (List.range sizes.length).flatMap
    (fun t => (List.range (sizes.getD t 0)).map (fun j => (t, j)))

/-- Push order of the interleaved branch: round-robin, one unit per Transfer
per round (`for subExecIdx: for transfer: if subExecIdx < numSubExecs
push_back`), until every unit has been pushed.  The source loops while
`tempSubExecParam.size() < totalSubExecs`; the rounds that push anything are
exactly rounds `0 .. max(sizes) - 1`. -/
def interleavedOrder (sizes : List Nat) : List (Nat × Nat) :=
  (List.range (sizes.foldr max 0)).flatMap
    (fun r => (List.range sizes.length).filterMap
      (fun t => if r < sizes.getD t 0 then some (t, r) else none))

/-- The merged device parameter array `tempSubExecParam` produced by pushing
the units in the order `ord`. -/
def mergedParams {α : Type} (ts : List (List α)) (d : α) (ord : List (Nat × Nat)) :
    List α :=
  ord.map (lookupParam ts d)

/-- Positions recorded into `transfer->subExecIdx` for transfer `t`: each
push of one of `t`'s units appends the current `tempSubExecParam.size()`,
i.e. the position of that push within `ord`, in push order — appended after
whatever `prev` the vector already held (only the sequential branch calls
`subExecIdx.clear()` first). -/
def recordedSubExecIdx (prev : List Nat) (ord : List (Nat × Nat)) (t : Nat) :
    List Nat :=
  prev ++ ((ord.enum.filter (fun q => q.2.1 = t)).map (fun q => q.1))

/-- The parameter-merge phase of `ExecuteTransfers` for one GFX executor
group: the sequential placement is used when single-stream mode is off or
the policy is sequential, and it clears each Transfer's `subExecIdx` first;
the interleaved and random branches append to the existing `subExecIdx`
contents (`prevIdx`).  The random branch's shuffled pair list is the
parameter `perm`.  Returns the push order together with every Transfer's
recorded `subExecIdx` list. -/
def orderingPhase {α : Type} (ts : List (List α)) (prevIdx : List (List Nat))
    (useSingleStream : Bool) (ord : BlockOrder) (perm : List (Nat × Nat)) :
    List (Nat × Nat) × List (List Nat) :=
  let sizes := ts.map List.length
  if useSingleStream = false ∨ ord = BlockOrder.sequential then
    let o := seqOrder sizes
    (o, (List.range ts.length).map (fun t => recordedSubExecIdx [] o t))
  else
    let o := match ord with
      | BlockOrder.interleaved => interleavedOrder sizes
      | _ => perm
    (o, (List.range ts.length).map (fun t => recordedSubExecIdx (prevIdx.getD t []) o t))

/-! ## Memory allocation (`AllocateMemory`) -/

/-- Memory domain kinds of the source (`MemType`).  `MEM_NULL` is the
placeholder kind that `ParseMemType` accepts but drops from the endpoint
lists. -/
inductive MemType where
  | MEM_CPU
  | MEM_CPU_FINE
  | MEM_CPU_UNPINNED
  | MEM_GPU
  | MEM_GPU_FINE
  | MEM_NULL
deriving DecidableEq

/-- Modelled from the spec: `IsCpuType` is defined in the repository's
header, which is not among the sources; per the data model, the host-side
domains are the pinned coherent, pinned non-coherent and unpinned NUMA-local
variants. -/
def IsCpuMemType : MemType → Bool
  | MemType.MEM_CPU => true
  | MemType.MEM_CPU_FINE => true
  | MemType.MEM_CPU_UNPINNED => true
  | _ => false

/-- Modelled from the spec: `IsGpuType` is defined in the repository's
header; the device-side domains are the standard and fine-grained variants. -/
def IsGpuMemType : MemType → Bool
  | MemType.MEM_GPU => true
  | MemType.MEM_GPU_FINE => true
  | _ => false

/-- `AllocateMemory(memType, devIndex, numBytes, memPtr)`.  A fatal
`exit(1)` is an `Except.error` carrying the printed message.  The native
allocators (`hipHostMalloc`, `numa_alloc_onnode`, `hipMalloc`,
`hipExtMallocWithFlags`), the zero-fill and the NUMA page check are external
OS/hardware primitives, modelled by the oracle `alloc`, which returns the
handle or `none` on native failure. -/
def allocateMemory (alloc : MemType → Nat → Nat → Option Nat)
    (memType : MemType) (devIndex numBytes : Nat) : Except String Nat :=
  if numBytes = 0 then
    Except.error "[ERROR] Unable to allocate 0 bytes"
  else if IsCpuMemType memType then
    match alloc memType devIndex numBytes with
    | some h => Except.ok h
    | none => Except.error "[ERROR] Unable to allocate host memory"
  else if IsGpuMemType memType then
    match alloc memType devIndex numBytes with
    | some h => Except.ok h
    | none => Except.error "[ERROR] Unable to allocate device memory"
  else
    Except.error "[ERROR] Unsupported memory type"

/-! ## Transfer parsing (`ParseTransfers`, `ParseMemType`, `ParseExeType`)

A configuration line is a list of characters.  `std::istringstream`
extraction and the `sscanf` calls are modelled by the primitives below:
skipping standard whitespace, extracting one `int`, extracting one
whitespace-delimited word. -/

/-- Executor kinds of the source (`ExeType`). -/
inductive ExeType where
  | EXE_GPU_GFX
  | EXE_GPU_DMA
  | EXE_CPU
deriving DecidableEq

/-- Whitespace as recognised by C stream extraction and `sscanf`. -/
def isWsChar (c : Char) : Bool :=
  c = ' ' ∨ c = '\t' ∨ c = '\n' ∨ c = '\r'

/-- Drop leading whitespace. -/
def skipWs : List Char → List Char
  | [] => []
  | c :: cs => if isWsChar c then skipWs cs else c :: cs

/-- Numeric value of a digit run. -/
def digitsVal (ds : List Char) : Nat :=
  ds.foldl (fun a c => a * 10 + (c.toNat - 48)) 0

/-- Extraction of one `int` (`iss >> n`, or the `%d` conversion): skip
whitespace, optional sign, then a non-empty digit run; fails otherwise. -/
def extractInt (cs : List Char) : Option (Int × List Char) :=
  match skipWs cs with
  | '-' :: rest =>
    match rest.span Char.isDigit with
    | ([], _) => none
    | (ds, rest2) => some (-(digitsVal ds : Int), rest2)
  | '+' :: rest =>
    match rest.span Char.isDigit with
    | ([], _) => none
    | (ds, rest2) => some ((digitsVal ds : Int), rest2)
  | other =>
    match other.span Char.isDigit with
    | ([], _) => none
    | (ds, rest2) => some ((digitsVal ds : Int), rest2)

/-- Extraction of one whitespace-delimited word (`iss >> token`). -/
def extractWord (cs : List Char) : Option (List Char × List Char) :=
  match (skipWs cs).span (fun c => !(isWsChar c)) with
  | ([], _) => none
  | (w, rest) => some (w, rest)

/-- Modelled from the spec: `CharToMemType` and the `MemTypeStr` letters live
in the repository's header, which is not among the sources.  The spec's
memory-domain variants are keyed by one letter each: coarse pinned host
`C`, fine pinned host `B`, unpinned host `U`, device standard `G`, device
fine-grained `F`, and the null placeholder `N`; any other letter is a fatal
parse error. -/
def charToMemType : Char → Option MemType
  | 'C' => some MemType.MEM_CPU
  | 'B' => some MemType.MEM_CPU_FINE
  | 'U' => some MemType.MEM_CPU_UNPINNED
  | 'G' => some MemType.MEM_GPU
  | 'F' => some MemType.MEM_GPU_FINE
  | 'N' => some MemType.MEM_NULL
  | _ => none

/-- Modelled from the spec: `CharToExeType` lives in the repository's
header.  The executor kinds are keyed `C` (host thread pool), `G` (device
compute kernel), `D` (device DMA engine). -/
def charToExeType : Char → Option ExeType
  | 'C' => some ExeType.EXE_CPU
  | 'G' => some ExeType.EXE_GPU_GFX
  | 'D' => some ExeType.EXE_GPU_DMA
  | _ => none

/-- The loop of `ParseMemType`: repeat `sscanf(" %c %d%n")` — one
(non-whitespace) character then one integer — collecting `(type, index)`
pairs, validating each index range, dropping `MEM_NULL` entries, until a
pair no longer matches; fatal if no pair ever matched.  `fuel` bounds the
iteration count (each iteration consumes at least two characters, so
`cs.length` iterations always suffice). -/
def parseMemTypeLoop (numCpus numGpus : Nat) :
    Nat → List Char → List (MemType × Int) → Bool →
    Except String (List (MemType × Int))
  | 0, _, acc, found =>
    if found then Except.ok acc
    else Except.error "[ERROR] Unable to parse memory type token"
  | fuel+1, cs, acc, found =>
    match skipWs cs with
    | [] =>
      if found then Except.ok acc
      else Except.error "[ERROR] Unable to parse memory type token"
    | c :: rest =>
      match extractInt rest with
      | none =>
        if found then Except.ok acc
        else Except.error "[ERROR] Unable to parse memory type token"
      | some (devIndex, rest2) =>
        match charToMemType c with
        | none => Except.error "[ERROR] Unable to parse memory type token"
        | some memType =>
          if IsCpuMemType memType ∧ (devIndex < 0 ∨ numCpus ≤ devIndex) then
            Except.error "[ERROR] CPU index out of range"
          else if IsGpuMemType memType ∧ (devIndex < 0 ∨ numGpus ≤ devIndex) then
            Except.error "[ERROR] GPU index out of range"
          else
            parseMemTypeLoop numCpus numGpus fuel rest2
              (if memType = MemType.MEM_NULL then acc else acc ++ [(memType, devIndex)])
              true

/-- `ParseMemType(token, numCpus, numGpus, memTypes, memIndices)`. -/
def parseMemType (token : List Char) (numCpus numGpus : Nat) :
    Except String (List (MemType × Int)) :=
  parseMemTypeLoop numCpus numGpus (token.length + 1) token [] false

/-- `ParseExeType(token, numCpus, numGpus, exeType, exeIndex)`:
`sscanf(" %c%d")` must match both items, the letter must name an executor
kind, and the index must be in range for that kind. -/
def parseExeType (token : List Char) (numCpus numGpus : Nat) :
    Except String (ExeType × Int) :=
  match skipWs token with
  | [] => Except.error "[ERROR] Unable to parse valid executor token"
  | c :: rest =>
    match extractInt rest with
    | none => Except.error "[ERROR] Unable to parse valid executor token"
    | some (exeIndex, _) =>
      match charToExeType c with
      | none => Except.error "[ERROR] Unable to parse valid executor token"
      | some exeType =>
        if exeType = ExeType.EXE_CPU ∧ (exeIndex < 0 ∨ numCpus ≤ exeIndex) then
          Except.error "[ERROR] CPU index out of range"
        else if exeType ≠ ExeType.EXE_CPU ∧ (exeIndex < 0 ∨ numGpus ≤ exeIndex) then
          Except.error "[ERROR] GPU index out of range"
        else Except.ok (exeType, exeIndex)

/-- One parsed Transfer descriptor (struct `Transfer`, the fields
`ParseTransfers` fills in). -/
structure Transfer where
  srcType : List MemType
  srcIndex : List Int
  dstType : List MemType
  dstIndex : List Int
  exeType : ExeType
  exeIndex : Int
  numSrcs : Nat
  numDsts : Nat
  numSubExecs : Int
  numBytes : Nat
deriving DecidableEq

/-- The `sscanf("%lu")` plus unit-suffix handling of the advanced-mode
`#Bytes` token: a leading non-empty digit run (after optional whitespace),
then the token's last character `K`/`M`/`G` (either case) scales the value. -/
def parseNumBytesToken (token : List Char) : Option Nat :=
  match (skipWs token).span Char.isDigit with
  | ([], _) => none
  | (ds, _) =>
    let base := digitsVal ds
    match token.getLast? with
    | some 'K' => some (base * 1024)
    | some 'k' => some (base * 1024)
    | some 'M' => some (base * (1024 * 1024))
    | some 'm' => some (base * (1024 * 1024))
    | some 'G' => some (base * (1024 * 1024 * 1024))
    | some 'g' => some (base * (1024 * 1024 * 1024))
    | _ => some base

/-- The bracket-stripping preprocessing of `ParseTransfers`: every `(`, `)`,
`-` or `>` from index 1 on is replaced by a space (index 0 is kept, so a
leading `-` marking advanced mode survives). -/
def mungeLine (cs : List Char) : List Char :=
  match cs with
  | [] => []
  | c :: rest =>
    c :: rest.map (fun d =>
      if d = '(' ∨ d = ')' ∨ d = '-' ∨ d = '>' then ' ' else d)

/-- The per-Transfer loop of `ParseTransfers`: for each of the `n` Transfers
read either a `SRC EXE DST` triplet (simple mode, shared `numSubExecs`) or a
`SRC EXE DST #CU #Bytes` 5-tuple (advanced mode), parse the endpoint and
executor tokens, and apply the structural checks: at least one endpoint, and
a DMA executor only with at most one source and one destination. -/
def parseTransfersLoop (numCpus numGpus : Nat) (advancedMode : Bool)
    (sharedSubExecs : Int) :
    Nat → List Char → List Transfer → Except String (List Transfer)
  | 0, _, acc => Except.ok acc
  | n+1, cs, acc =>
    match extractWord cs with
    | none => Except.error "Parsing error: Unable to read valid Transfer"
    | some (srcTok, cs1) =>
      match extractWord cs1 with
      | none => Except.error "Parsing error: Unable to read valid Transfer"
      | some (exeTok, cs2) =>
        match extractWord cs2 with
        | none => Except.error "Parsing error: Unable to read valid Transfer"
        | some (dstTok, cs3) =>
          let next :=
            if advancedMode then
              match extractInt cs3 with
              | none => Except.error "Parsing error: Unable to read valid Transfer"
              | some (subExecs, cs4) =>
                match extractWord cs4 with
                | none => Except.error "Parsing error: Unable to read valid Transfer"
                | some (bytesTok, cs5) =>
                  match parseNumBytesToken bytesTok with
                  | none => Except.error "Parsing error: not a valid expression of numBytes"
                  | some b => Except.ok (subExecs, b, cs5)
            else Except.ok (sharedSubExecs, 0, cs3)
          match next with
          | Except.error e => Except.error e
          | Except.ok (subExecs, bytes, csRest) =>
            match parseMemType srcTok numCpus numGpus with
            | Except.error e => Except.error e
            | Except.ok src =>
              match parseMemType dstTok numCpus numGpus with
              | Except.error e => Except.error e
              | Except.ok dst =>
                match parseExeType exeTok numCpus numGpus with
                | Except.error e => Except.error e
                | Except.ok (exeType, exeIndex) =>
                  if src.length = 0 ∧ dst.length = 0 then
                    Except.error "[ERROR] Transfer must have at least one src or dst"
                  else if exeType = ExeType.EXE_GPU_DMA ∧
                      (1 < src.length ∨ 1 < dst.length) then
                    Except.error "[ERROR] GPU DMA executor can only be used for single source / single dst Transfers"
                  else
                    parseTransfersLoop numCpus numGpus advancedMode sharedSubExecs n csRest
                      (acc ++ [{ srcType := src.map Prod.fst
                                 srcIndex := src.map Prod.snd
                                 dstType := dst.map Prod.fst
                                 dstIndex := dst.map Prod.snd
                                 exeType := exeType
                                 exeIndex := exeIndex
                                 numSrcs := src.length
                                 numDsts := dst.length
                                 numSubExecs := subExecs
                                 numBytes := bytes }])

/-- `ParseTransfers(line, numCpus, numGpus, transfers)`.  A line whose
leading token is not an integer yields the empty Transfer list without
error (`if (iss.fail()) return;`); a negative count selects advanced
5-tuple mode; in simple mode the shared sub-executor count must parse and
be positive. -/
def parseTransfers (line : List Char) (numCpus numGpus : Nat) :
    Except String (List Transfer) :=
  let l := mungeLine line
  match extractInt l with
  | none => Except.ok []
  | some (numTransfers, rest) =>
    let advancedMode := numTransfers < 0
    let n := numTransfers.natAbs
    if advancedMode then
      parseTransfersLoop numCpus numGpus true 0 n rest []
    else
      match extractInt rest with
      | none => Except.error "Parsing error: Number of blocks to use must be greater than 0"
      | some (subExecs, rest2) =>
        if subExecs ≤ 0 then
          Except.error "Parsing error: Number of blocks to use must be greater than 0"
        else
          parseTransfersLoop numCpus numGpus false subExecs n rest2 []

/-- The run-wide byte-count setup of `main` (lines 57-73): parse `argv[2]`
with `atoll`, apply a `K`/`M`/`G` suffix, convert to `size_t` (modulo
`2^64`), and reject the result fatally when it is not a multiple of the
4-byte element size. -/
def mainBytesSetup (arg : List Char) : Except String Nat :=
  let v : Int :=
    match extractInt arg with
    | none => 0
    | some (x, _) => x
  let scaled : Int :=
    match arg.getLast? with
    | some 'K' => v * 1024
    | some 'k' => v * 1024
    | some 'M' => v * (1024 * 1024)
    | some 'm' => v * (1024 * 1024)
    | some 'G' => v * (1024 * 1024 * 1024)
    | some 'g' => v * (1024 * 1024 * 1024)
    | _ => v
  let numBytesPerTransfer : Nat := (scaled % (2 ^ 64 : Int)).toNat
  if numBytesPerTransfer % 4 ≠ 0 then
    Except.error "[ERROR] numBytesPerTransfer must be a multiple of 4"
  else Except.ok numBytesPerTransfer

/-- The config-file loop of `main` (lines 186-188) on one line: parse it;
a parse error is fatal, an empty Transfer list is skipped (`continue`), and
otherwise the line's Transfer set is handed to `ExecuteTransfers` (here:
appended to the list of executed test sets). -/
def processConfigLine (numCpus numGpus : Nat) (line : List Char)
    (tests : List (List Transfer)) : Except String (List (List Transfer)) :=
  match parseTransfers line numCpus numGpus with
  | Except.error e => Except.error e
  | Except.ok [] => Except.ok tests
  | Except.ok ts => Except.ok (tests ++ [ts])

/-! ## Destination validation (`Transfer::ValidateDst`)

Buffer contents are again an abstract element type with decidable equality.
A trace records which elementwise comparisons were performed (as
`(dstIdx, elemIdx)` pairs), which mismatches were reported (transfer
identity, destination index, element index, actual value, expected value),
and whether the process was aborted (`exit(1)`). -/

/-- Trace of one `ValidateDst` run. -/
structure ValidationTrace (α : Type) where
  comparisons : List (Nat × Nat)
  reports : List (Nat × Nat × Nat × α × α)
  aborted : Bool
deriving DecidableEq

/-- The elementwise comparison loop over one destination buffer, from
element index `i`: compare `reference[i]` with `output[i]`; on the first
mismatch stop, yielding the mismatch `(index, actual, expected)`. -/
def scanMismatch {α : Type} [DecidableEq α] :
    Nat → List α → List α → List Nat × Option (Nat × α × α)
  | _, [], _ => ([], none)
  | _, _ :: _, [] => ([], none)
  | i, r :: rs, o :: os =>
    if r = o then
      let rest := scanMismatch (i+1) rs os
      (i :: rest.1, rest.2)
    else ([i], some (i, o, r))

/-- The destination loop of `Transfer::ValidateDst`, from destination index
`dstIdx`: scan each buffer; on a mismatch, report it, then either abort the
process (`exit(1)`, when `continueOnError` is off — no further destination
is examined) or `break` out of only the element loop and move on to the
next destination buffer. -/
def validateDstLoop {α : Type} [DecidableEq α] (continueOnError : Bool)
    (tid : Nat) (reference : List α) :
    Nat → List (List α) → ValidationTrace α
  | _, [] => ⟨[], [], false⟩
  | dstIdx, out :: rest =>
    let s := scanMismatch 0 reference out
    let comps := s.1.map (fun i => (dstIdx, i))
    match s.2 with
    | none =>
      let tr := validateDstLoop continueOnError tid reference (dstIdx+1) rest
      ⟨comps ++ tr.comparisons, tr.reports, tr.aborted⟩
    | some (i, a, e) =>
      if continueOnError then
        let tr := validateDstLoop continueOnError tid reference (dstIdx+1) rest
        ⟨comps ++ tr.comparisons, (tid, dstIdx, i, a, e) :: tr.reports, tr.aborted⟩
      else
        ⟨comps, [(tid, dstIdx, i, a, e)], true⟩

/-- `Transfer::ValidateDst` for a Transfer with identity `tid`, reference
sequence `reference` and destination buffer contents `outputs`. -/
def validateDst {α : Type} [DecidableEq α] (continueOnError : Bool)
    (tid : Nat) (reference : List α) (outputs : List (List α)) :
    ValidationTrace α :=
  validateDstLoop continueOnError tid reference 0 outputs

/-- First mismatch of a zipped (reference, output) pair list, written from
the specification's words ("compares elementwise; on the first mismatch it
reports ... the offending index, actual vs. expected"): position of the
first unequal pair, with the actual (output) and expected (reference)
values.  To be compared with the trace that `validateDst` produces. -/
def firstMismatchZ {α : Type} [DecidableEq α] :
    List (α × α) → Option (Nat × α × α)
  | [] => none
  | p :: z =>
    if p.1 = p.2 then (firstMismatchZ z).map (fun t => (t.1 + 1, t.2))
    else some (0, p.2, p.1)

/-- Comparison indices the specification's description implies for one
destination buffer: everything up to and including the first mismatch, or
every common index when the buffers agree. -/
def specCompIndices {α : Type} [DecidableEq α] (reference out : List α) :
    List Nat :=
  match firstMismatchZ (List.zip reference out) with
  | none => List.range (min reference.length out.length)
  | some m => List.range (m.1 + 1)

/-! ## Timing accumulation (`RunTransfer`, `ExecuteTransfers` iteration loop)

Only the timing state is modelled: the per-Transfer accumulated
`transferTime`, the per-Transfer `perIterationTime` sample lists, and the
executor group's `totalTime`.  The hardware- and OS-measured durations
(`hipEventElapsedTime`, the per-Transfer times derived from sub-executor
cycle stamps, and the host `chrono` delta) are oracle inputs. -/

/-- Timing state of one executor group. -/
structure ExeTiming where
  transferTimes : List Rat
  perIterTimes : List (List Rat)
  totalTime : Rat
deriving DecidableEq

/-- Measured durations available to one `RunTransfer` call. -/
structure TimingOracle where
  gpuDeltaMsec : Rat
  cycleTimes : List Rat
  cpuDeltaMsec : Rat
deriving DecidableEq

/-- Apply `f` to element `i` of a list, as `l[i] = f(l[i])`. -/
def updateAt {β : Type} : List β → Nat → (β → β) → List β
  | [], _, _ => []
  | b :: bs, 0, f => f b :: bs
  | b :: bs, i+1, f => b :: updateAt bs i f

/-- The timing effect of one `RunTransfer(ev, iteration, exeInfo,
transferIdx)` call.  Every branch records timing only under
`if (iteration >= 0)`: the GFX branch in single-stream mode adds each
constituent Transfer's cycle-derived time and adds the kernel duration to
the group's `totalTime`; the GFX per-stream, DMA and CPU branches add the
measured duration to this Transfer's `transferTime`; with `showIterations`
the per-iteration sample is also pushed. -/
def runTransferTiming (exeType : ExeType) (useSingleStream showIterations : Bool)
    (iteration : Int) (oracle : TimingOracle) (transferIdx : Nat)
    (st : ExeTiming) : ExeTiming :=
  match exeType with
  | ExeType.EXE_GPU_GFX =>
    if 0 ≤ iteration then
      if useSingleStream then
        { transferTimes := List.zipWith (· + ·) st.transferTimes oracle.cycleTimes
          perIterTimes :=
            if showIterations then
              List.zipWith (fun s v => s ++ [v]) st.perIterTimes oracle.cycleTimes
            else st.perIterTimes
          totalTime := st.totalTime + oracle.gpuDeltaMsec }
      else
        { st with
          transferTimes := updateAt st.transferTimes transferIdx (· + oracle.gpuDeltaMsec)
          perIterTimes :=
            if showIterations then
              updateAt st.perIterTimes transferIdx (fun s => s ++ [oracle.gpuDeltaMsec])
            else st.perIterTimes }
    else st
  | ExeType.EXE_GPU_DMA =>
    if 0 ≤ iteration then
      { st with
        transferTimes := updateAt st.transferTimes transferIdx (· + oracle.gpuDeltaMsec)
        perIterTimes :=
          if showIterations then
            updateAt st.perIterTimes transferIdx (fun s => s ++ [oracle.gpuDeltaMsec])
          else st.perIterTimes }
    else st
  | ExeType.EXE_CPU =>
    if 0 ≤ iteration then
      { st with
        transferTimes := updateAt st.transferTimes transferIdx (· + oracle.cpuDeltaMsec)
        perIterTimes :=
          if showIterations then
            updateAt st.perIterTimes transferIdx (fun s => s ++ [oracle.cpuDeltaMsec])
          else st.perIterTimes }
    else st

/-- The per-iteration bookkeeping of `ExecuteTransfers` (lines 484-488):
`numTimedIterations` and `totalCpuTime` are advanced only when
`iteration >= 0`. -/
def iterationTally (iteration : Int) (deltaSec : Rat) (s : Nat × Rat) : Nat × Rat :=
  if 0 ≤ iteration then (s.1 + 1, s.2 + deltaSec) else s

/-- The fixed-count iteration loop of `ExecuteTransfers`: iterations run
from `-numWarmups` to `numIterations - 1` and each applies
`iterationTally`; `deltas` gives the measured wall-clock duration of each
iteration. -/
def runIterationLoop (numWarmups numIterations : Nat) (deltas : Int → Rat) :
    Nat × Rat :=
  ((List.range (numWarmups + numIterations)).map
      (fun k => Int.ofNat k - Int.ofNat numWarmups)).foldl
    (fun s it => iterationTally it (deltas it) s) (0, 0)

/-! ## Theorems: the Sub-Executor Partitioner -/

theorem ceilDiv_mul_ge (G M : Nat) (hG : 1 ≤ G) : M ≤ ceilDiv M G * G := by
  have hmod := Nat.div_add_mod (M + G - 1) G
  rw [Nat.mul_comm] at hmod
  have hlt : (M + G - 1) % G < G := Nat.mod_lt _ (by omega)
  unfold ceilDiv
  omega

theorem subExecCount_le (G L M : Nat) : subExecCount G L M ≤ M := by
  unfold subExecCount
  split
  · exact Nat.zero_le M
  · exact Nat.min_le_left _ _

theorem subExecCount_zero_left (G M : Nat) : subExecCount G 0 M = 0 := rfl

theorem subExecCount_one (G M : Nat) (hG : 1 ≤ G) : subExecCount G 1 M = M := by
  unfold subExecCount
  simp only [Nat.div_one, if_neg (Nat.one_ne_zero)]
  exact Nat.min_eq_left (ceilDiv_mul_ge G M hG)

theorem prepareLoop_length (N G maxUse : Nat) :
    ∀ fuel i assigned, (prepareLoop N G maxUse fuel i assigned).length = fuel := by
  intro fuel
  induction fuel with
  | zero => intro i assigned; rfl
  | succ f ih =>
    intro i assigned
    simp only [prepareLoop, List.length_cons, ih]

theorem prepareLoop_sum (N G maxUse : Nat) (hG : 1 ≤ G) :
    ∀ fuel i assigned, assigned ≤ N → maxUse - i ≤ fuel →
      (maxUse ≤ i → assigned = N) →
      ((prepareLoop N G maxUse fuel i assigned).map SubExecParam.N).sum = N - assigned := by
  intro fuel
  induction fuel with
  | zero =>
    intro i assigned h1 h2 h3
    have : assigned = N := h3 (by omega)
    simp [prepareLoop, this]
  | succ f ih =>
    intro i assigned h1 h2 h3
    simp only [prepareLoop, List.map_cons, List.sum_cons]
    by_cases hmi : maxUse ≤ i
    · have hz : maxUse - i = 0 := by omega
      have ha : assigned = N := h3 hmi
      simp only [hz, subExecCount_zero_left, Nat.add_zero, Nat.zero_add]
      rw [ih (i+1) assigned h1 (by omega) (fun _ => ha)]
    · have hc := subExecCount_le G (maxUse - i) (N - assigned)
      by_cases hone : maxUse = i + 1
      · have hL : maxUse - i = 1 := by omega
        rw [hL, subExecCount_one G (N - assigned) hG]
        have hfull : assigned + (N - assigned) = N := by omega
        rw [ih (i+1) (assigned + (N - assigned)) (by omega) (by omega) (fun _ => hfull)]
        omega
      · have hrec := ih (i+1) (assigned + subExecCount G (maxUse - i) (N - assigned))
          (by omega) (by omega) (fun h => absurd h (by omega))
        rw [hrec]
        omega

theorem prepareLoop_countP (N G maxUse : Nat) :
    ∀ fuel i assigned,
      (prepareLoop N G maxUse fuel i assigned).countP (fun p => p.N != 0) ≤ maxUse - i := by
  intro fuel
  induction fuel with
  | zero => intro i assigned; simp [prepareLoop]
  | succ f ih =>
    intro i assigned
    simp only [prepareLoop, List.countP_cons]
    by_cases hmi : maxUse ≤ i
    · have hz : maxUse - i = 0 := by omega
      simp only [hz, subExecCount_zero_left, Nat.add_zero]
      have := ih (i+1) assigned
      simp only [bne_self_eq_false, Bool.false_eq_true, if_false]
      omega
    · have := ih (i+1) (assigned + subExecCount G (maxUse - i) (N - assigned))
      have hif : (if (subExecCount G (maxUse - i) (N - assigned) != 0) = true then 1 else 0) ≤ 1 := by
        split <;> omega
      omega

theorem prepareLoop_getD (N G maxUse : Nat) :
    ∀ fuel i assigned j, j < fuel →
      (prepareLoop N G maxUse fuel i assigned).getD j ⟨0, 0⟩ =
        ⟨subExecCount G (maxUse - (i + j))
            (N - (assigned +
              (((prepareLoop N G maxUse fuel i assigned).take j).map SubExecParam.N).sum)),
          assigned +
            (((prepareLoop N G maxUse fuel i assigned).take j).map SubExecParam.N).sum⟩ := by
  intro fuel
  induction fuel with
  | zero => intro i assigned j hj; omega
  | succ f ih =>
    intro i assigned j hj
    cases j with
    | zero => simp [prepareLoop]
    | succ j =>
      simp only [prepareLoop, List.getD_cons_succ, List.take_succ_cons, List.map_cons,
        List.sum_cons]
      rw [ih (i+1) (assigned + subExecCount G (maxUse - i) (N - assigned)) j (by omega)]
      have h1 : i + 1 + j = i + (j + 1) := by omega
      have h2 : ∀ s : Nat,
          assigned + subExecCount G (maxUse - i) (N - assigned) + s =
            assigned + (subExecCount G (maxUse - i) (N - assigned) + s) := by
        intro s; omega
      rw [h1, h2]

/-- C1: for every TransferSpec with `N` elements, `S ≥ 1` requested
sub-executors and alignment granularity `G ≥ 1` elements, the
`SubExecParam` entries produced by `Transfer::PrepareSubExecParams` are one
per requested sub-executor, have non-negative counts summing to exactly
`N`, describe pairwise-disjoint contiguous ranges (each unit's offset is
the sum of the counts of all earlier units), and have at most
`min(S, ceil(N/G))` non-zero entries. -/
theorem partitioner_partitions_exactly (N G S : Nat) (hG : 1 ≤ G) (hS : 1 ≤ S) :
    (prepareSubExecParams N G S).length = S ∧
    ((prepareSubExecParams N G S).map SubExecParam.N).sum = N ∧
    (∀ j, j < S →
      ((prepareSubExecParams N G S).getD j ⟨0, 0⟩).offset =
        (((prepareSubExecParams N G S).take j).map SubExecParam.N).sum) ∧
    (∀ p ∈ prepareSubExecParams N G S, 0 ≤ p.N) ∧
    (prepareSubExecParams N G S).countP (fun p => p.N != 0) ≤ min S (ceilDiv N G) := by
  refine ⟨prepareLoop_length N G _ S 0 0, ?_, ?_, fun p _ => Nat.zero_le _, ?_⟩
  · have hz : min (ceilDiv N G) S ≤ 0 → (0 : Nat) = N := by
      intro h
      have : ceilDiv N G = 0 ∨ S = 0 := by
        rcases Nat.le_total (ceilDiv N G) S with hle | hle
        · left; omega
        · right; omega
      rcases this with h1 | h1
      · have : N + G - 1 < G := by
          have := (Nat.div_eq_zero_iff (by omega : 0 < G)).mp h1
          omega
        omega
      · omega
    have := prepareLoop_sum N G (min (ceilDiv N G) S) hG S 0 0 (Nat.zero_le N)
      (by omega) hz
    simpa [prepareSubExecParams] using this
  · intro j hj
    have := prepareLoop_getD N G (min (ceilDiv N G) S) S 0 0 j hj
    simp only [prepareSubExecParams] at *
    rw [this]
    simp
  · have := prepareLoop_countP N G (min (ceilDiv N G) S) S 0 0
    have hm : min (ceilDiv N G) S = min S (ceilDiv N G) := Nat.min_comm _ _
    simp only [prepareSubExecParams]
    omega

/-- Witness for C1 at `N = 10`, `G = 4`, `S = 3`: the three produced counts
`[4, 4, 2]` sum to 10. -/
theorem partitioner_partitions_exactly_witness :
    ((prepareSubExecParams 10 4 3).map SubExecParam.N).sum = 10 :=
  (partitioner_partitions_exactly 10 4 3 (by decide) (by decide)).2.1

/-- Counterexample for C2 as stated: at `N = 5`, `G = 2`, `S = 2`, unit 0
(`remaining = 5`, `subExecLeft = min(S, ceil(N/G)) = 2`) the code assigns
`min(5, floor(ceil(5/2)/2)·2) = 2` elements, whereas the claim's formula
`min(remaining, ceil(remaining/G/subExecLeft)·G)`, with `ceil` applied to
the full quotient `5/(2·2)`, gives `min(5, ceil(5/4)·2) = 4`. -/
theorem partitioner_count_formula_counterexample :
    ((prepareSubExecParams 5 2 2).getD 0 ⟨0, 0⟩).N ≠
        specCountLiteral 2 (min 2 (ceilDiv 5 2)) 5 ∧
      ((prepareSubExecParams 5 2 2).getD 0 ⟨0, 0⟩).N = 2 ∧
      specCountLiteral 2 (min 2 (ceilDiv 5 2)) 5 = 4 := by decide

/-- C2 amended: for every sub-executor index `j < S`, with
`remaining = N - assignedSoFar` (`assignedSoFar` the sum of the counts of
the earlier units) and `subExecLeft = max(0, maxUsable - j)` where
`maxUsable = min(S, ceil(N/G))`, the count assigned to unit `j` is
`min(remaining, floor(ceil(remaining/G) / subExecLeft) * G)` when
`subExecLeft > 0` — the inner division by `subExecLeft` is integer floor
division of the already-rounded `ceil(remaining/G)` — and `0` when
`subExecLeft = 0`. -/
theorem partitioner_count_formula (N G S j : Nat) (hj : j < S) :
    ((prepareSubExecParams N G S).getD j ⟨0, 0⟩).N =
      subExecCount G (min S (ceilDiv N G) - j)
        (N - (((prepareSubExecParams N G S).take j).map SubExecParam.N).sum) := by
  have := prepareLoop_getD N G (min (ceilDiv N G) S) S 0 0 j hj
  simp only [prepareSubExecParams] at *
  rw [this, Nat.min_comm (ceilDiv N G) S]
  simp

/-- Witness for the amended C2 at `N = 5`, `G = 2`, `S = 2`, `j = 1`:
`remaining = 3`, `subExecLeft = 1`, and the final unit absorbs all
3 remaining elements. -/
theorem partitioner_count_formula_witness :
    ((prepareSubExecParams 5 2 2).getD 1 ⟨0, 0⟩).N =
      subExecCount 2 (min 2 (ceilDiv 5 2) - 1)
        (5 - (((prepareSubExecParams 5 2 2).take 1).map SubExecParam.N).sum) :=
  partitioner_count_formula 5 2 2 1 (by decide)

/-! ## Theorems: reference pattern generation -/

theorem addInto_map {α : Type} [Add α] (g h : Nat → α) (l : List Nat) :
    addInto (l.map h) (l.map g) = l.map (fun x => h x + g x) := by
  induction l with
  | nil => rfl
  | cons a l ih => simp [addInto, List.zipWith, ih]

theorem foldl_addInto_map {α : Type} [Add α] (g : Nat → Nat → α) (N : Nat) :
    ∀ (ks : List Nat) (h : Nat → α),
      ks.foldl (fun buf k => addInto buf ((List.range N).map (g k)))
          ((List.range N).map h) =
        (List.range N).map (fun i => ks.foldl (fun v k => v + g k i) (h i)) := by
  intro ks
  induction ks with
  | nil => intro h; rfl
  | cons k ks ih =>
    intro h
    simp only [List.foldl_cons]
    rw [addInto_map]
    exact ih (fun i => h i + g k i)

/-- C3: the reference sequence `Transfer::PrepareReference` computes for the
destination (buffer index `-1`) is, for a Transfer with zero sources, every
element equal to the fill constant (`MEMSET_CHAR` repeated over each
element's bytes, modelled by `memsetElem`), and for a Transfer with one or
more sources the elementwise sum of the reference sequences of all of its
sources. -/
theorem prepareReferenceDst_spec {α : Type} [Add α] (memsetElem : α)
    (fillPattern : List α) (f : Nat → Nat → α) (numSrcs N : Nat) :
    (numSrcs = 0 →
      prepareReferenceDst memsetElem fillPattern f numSrcs N =
        List.replicate N memsetElem) ∧
    (1 ≤ numSrcs →
      prepareReferenceDst memsetElem fillPattern f numSrcs N =
        sumOfSourceReferences fillPattern f numSrcs N) := by
  constructor
  · intro h
    simp [prepareReferenceDst, h]
  · intro h
    have hne : ¬ numSrcs = 0 := by omega
    simp only [prepareReferenceDst, if_neg hne, sumOfSourceReferences,
      prepareReferenceSrc]
    exact foldl_addInto_map (fun k i => srcRefValue fillPattern f (k+1) i) N
      (List.range (numSrcs - 1)) (srcRefValue fillPattern f 0)

/-- Witness for C3 at a two-source Transfer of 3 elements with no
configured fill pattern and source pattern `f b i = (b+1)*(i+2)`: the
destination reference is the elementwise sum of both sources' references. -/
theorem prepareReferenceDst_spec_witness :
    prepareReferenceDst 7 [] (fun b i => (b+1)*(i+2)) 2 3 =
      sumOfSourceReferences [] (fun b i => (b+1)*(i+2)) 2 3 :=
  (prepareReferenceDst_spec 7 [] (fun b i => (b+1)*(i+2)) 2 3).2 (by decide)

/-! ## Theorems: allocation and parsing -/

/-- C5: for every memory domain and index (and whatever the native
allocators would do), requesting an allocation of 0 bytes fails fatally
with the allocation error message; `AllocateMemory` never returns a handle
when `sizeBytes` is zero. -/
theorem allocateMemory_zero_fatal (alloc : MemType → Nat → Nat → Option Nat)
    (memType : MemType) (devIndex : Nat) :
    allocateMemory alloc memType devIndex 0 =
      Except.error "[ERROR] Unable to allocate 0 bytes" := rfl

theorem parseTransfersLoop_dma (numCpus numGpus : Nat) (adv : Bool) (shared : Int) :
    ∀ (n : Nat) (cs : List Char) (acc ts : List Transfer),
      (∀ t ∈ acc, t.exeType = ExeType.EXE_GPU_DMA → t.numSrcs ≤ 1 ∧ t.numDsts ≤ 1) →
      parseTransfersLoop numCpus numGpus adv shared n cs acc = Except.ok ts →
      ∀ t ∈ ts, t.exeType = ExeType.EXE_GPU_DMA → t.numSrcs ≤ 1 ∧ t.numDsts ≤ 1 := by
  intro n
  induction n with
  | zero =>
    intro cs acc ts hacc h
    simp only [parseTransfersLoop] at h
    injection h with h
    subst h
    exact hacc
  | succ n ih =>
    intro cs acc ts hacc h
    simp only [parseTransfersLoop] at h
    repeat' split at h
    all_goals try (exact absurd h (by simp))
    case _ src _ dst _ exeType exeIndex _ hne hdma =>
      refine ih _ _ ts ?_ h
      intro t ht hexe
      rcases List.mem_append.mp ht with hin | hin
      · exact hacc t hin hexe
      · have ht1 : t = _ := List.mem_singleton.mp hin
        subst ht1
        simp only at hexe ⊢
        push_neg at hdma
        have := hdma hexe
        omega

/-- C6: every Transfer list that `ParseTransfers` returns satisfies the
DMA-executor restriction — a parsed device-DMA-engine Transfer never has
more than one source or more than one destination; a line configuring one
is rejected with a fatal configuration error during parsing itself, i.e.
before `ExecuteTransfers` can allocate any buffer for it. -/
theorem parseTransfers_dma_single_endpoint (line : List Char) (numCpus numGpus : Nat)
    (ts : List Transfer)
    (h : parseTransfers line numCpus numGpus = Except.ok ts) :
    ∀ t ∈ ts, t.exeType = ExeType.EXE_GPU_DMA → t.numSrcs ≤ 1 ∧ t.numDsts ≤ 1 := by
  simp only [parseTransfers] at h
  repeat' split at h
  · injection h with h
    subst h
    intro t ht
    exact absurd ht (List.not_mem_nil t)
  · exact parseTransfersLoop_dma numCpus numGpus true 0 _ _ [] ts
      (fun t ht => absurd ht (List.not_mem_nil t)) h
  · exact absurd h (by simp)
  · exact absurd h (by simp)
  · exact parseTransfersLoop_dma numCpus numGpus false _ _ _ [] ts
      (fun t ht => absurd ht (List.not_mem_nil t)) h

/-- Witness for C6: the line `1 4 C0 D0 C0` parses to one single-source,
single-destination DMA Transfer, which satisfies the restriction. -/
theorem parseTransfers_dma_single_endpoint_witness :
    ({ srcType := [MemType.MEM_CPU], srcIndex := [0],
       dstType := [MemType.MEM_CPU], dstIndex := [0],
       exeType := ExeType.EXE_GPU_DMA, exeIndex := 0,
       numSrcs := 1, numDsts := 1, numSubExecs := 4,
       numBytes := 0 } : Transfer).numSrcs ≤ 1 ∧
    ({ srcType := [MemType.MEM_CPU], srcIndex := [0],
       dstType := [MemType.MEM_CPU], dstIndex := [0],
       exeType := ExeType.EXE_GPU_DMA, exeIndex := 0,
       numSrcs := 1, numDsts := 1, numSubExecs := 4,
       numBytes := 0 } : Transfer).numDsts ≤ 1 :=
  parseTransfers_dma_single_endpoint ("1 4 C0 D0 C0").toList 1 1 _ (by rfl) _
    (List.mem_singleton.mpr rfl) rfl

/-- C10: a configuration line whose leading token is not an integer makes
`ParseTransfers` return normally with an empty Transfer list (no abort),
and the `main` config-file loop skips the line, leaving the executed test
sets unchanged. -/
theorem parseTransfers_bad_count_skipped (line : List Char) (numCpus numGpus : Nat)
    (tests : List (List Transfer))
    (h : extractInt (mungeLine line) = none) :
    parseTransfers line numCpus numGpus = Except.ok [] ∧
    processConfigLine numCpus numGpus line tests = Except.ok tests := by
  have h1 : parseTransfers line numCpus numGpus = Except.ok [] := by
    simp only [parseTransfers, h]
  exact ⟨h1, by simp only [processConfigLine, h1]⟩

/-- Witness for C10: the line `bogus 4 C0 G0 C0` has no leading integer and
is skipped. -/
theorem parseTransfers_bad_count_skipped_witness :
    parseTransfers ("bogus 4 C0 G0 C0").toList 2 2 = Except.ok [] ∧
    processConfigLine 2 2 ("bogus 4 C0 G0 C0").toList [] = Except.ok [] :=
  parseTransfers_bad_count_skipped ("bogus 4 C0 G0 C0").toList 2 2 [] (by rfl)

/-- Counterexample for C8 as stated: the advanced-mode line
`-1 C0 G0 C0 4 6` carries a per-Transfer byte count of 6, which is not a
multiple of the 4-byte element size, yet `ParseTransfers` accepts it
without any error — per-Transfer byte counts are not checked at
parse/setup time. -/
theorem perTransfer_bytes_unchecked_counterexample :
    parseTransfers ("-1 C0 G0 C0 4 6").toList 1 1 =
      Except.ok [{ srcType := [MemType.MEM_CPU], srcIndex := [0],
                   dstType := [MemType.MEM_CPU], dstIndex := [0],
                   exeType := ExeType.EXE_GPU_GFX, exeIndex := 0,
                   numSrcs := 1, numDsts := 1, numSubExecs := 4,
                   numBytes := 6 }] ∧
    (6 : Nat) % 4 ≠ 0 := ⟨by rfl, by decide⟩

/-- C8 amended: the command-line run-wide byte count is validated at setup
time — `main` accepts `argv[2]` only when the resulting `size_t` value is a
multiple of the 4-byte element size, rejecting it fatally otherwise (before
any resource allocation); the per-Transfer byte counts of advanced-mode
5-tuples are not subject to this check. -/
theorem mainBytesSetup_multiple_of_elem (arg : List Char) (n : Nat)
    (h : mainBytesSetup arg = Except.ok n) : n % 4 = 0 := by
  simp only [mainBytesSetup] at h
  split at h
  · exact absurd h (by simp)
  · injection h with h
    subst h
    omega

/-- Witness for the amended C8: the argument `16` is accepted and is a
multiple of 4. -/
theorem mainBytesSetup_multiple_of_elem_witness : (16 : Nat) % 4 = 0 :=
  mainBytesSetup_multiple_of_elem ("16").toList 16 (by rfl)

/-! ## Theorems: destination validation -/

theorem firstMismatchZ_cons_cons {α : Type} [DecidableEq α] (r o : α)
    (rs os : List α) :
    firstMismatchZ (List.zip (r :: rs) (o :: os)) =
      if r = o then (firstMismatchZ (List.zip rs os)).map (fun t => (t.1 + 1, t.2))
      else some (0, o, r) := by
  rw [List.zip_cons_cons]
  simp [firstMismatchZ]

theorem map_add_shift (i m : Nat) :
    i :: (List.range m).map (fun x => i + 1 + x) =
      (List.range (m + 1)).map (fun x => i + x) := by
  rw [List.range_succ_eq_map]
  simp only [List.map_cons, List.map_map]
  congr 1
  apply List.map_congr_left
  intro x _
  simp only [Function.comp_apply]
  omega

theorem scanMismatch_spec {α : Type} [DecidableEq α] :
    ∀ (ref out : List α) (i : Nat),
      (scanMismatch i ref out).1 = (specCompIndices ref out).map (fun x => i + x) ∧
      (scanMismatch i ref out).2 =
        (firstMismatchZ (List.zip ref out)).map (fun t => (i + t.1, t.2)) := by
  intro ref
  induction ref with
  | nil =>
    intro out i
    simp [scanMismatch, specCompIndices, firstMismatchZ]
  | cons r rs ih =>
    intro out i
    cases out with
    | nil => simp [scanMismatch, specCompIndices, firstMismatchZ]
    | cons o os =>
      by_cases heq : r = o
      · have h1 := ih os (i + 1)
        have hz := firstMismatchZ_cons_cons r o rs os
        rw [if_pos heq] at hz
        constructor
        · simp only [scanMismatch, if_pos heq, specCompIndices, hz]
          rw [h1.1]
          rcases hm : firstMismatchZ (List.zip rs os) with _ | m
          · simp only [specCompIndices, hm, Option.map_none, List.length_cons]
            rw [Nat.succ_min_succ]
            exact map_add_shift i _
          · simp only [specCompIndices, hm, Option.map_some]
            exact map_add_shift i _
        · simp only [scanMismatch, if_pos heq, hz]
          rw [h1.2, Option.map_map]
          have hf : ((fun t : Nat × α × α => (i + t.1, t.2)) ∘ fun t => (t.1 + 1, t.2))
              = fun t : Nat × α × α => (i + 1 + t.1, t.2) := by
            funext t
            simp only [Function.comp_apply]
            have h2 : i + (t.1 + 1) = i + 1 + t.1 := by omega
            rw [h2]
          rw [hf]
      · have hz := firstMismatchZ_cons_cons r o rs os
        rw [if_neg heq] at hz
        constructor
        · simp only [scanMismatch, if_neg heq, specCompIndices, hz]
          simp [List.range_succ]
        · simp only [scanMismatch, if_neg heq, hz]
          simp

theorem scanMismatch_zero_fst {α : Type} [DecidableEq α] (ref out : List α) :
    (scanMismatch 0 ref out).1 = specCompIndices ref out := by
  have := (scanMismatch_spec ref out 0).1
  simpa using this

theorem scanMismatch_zero_snd {α : Type} [DecidableEq α] (ref out : List α) :
    (scanMismatch 0 ref out).2 = firstMismatchZ (List.zip ref out) := by
  have := (scanMismatch_spec ref out 0).2
  simpa using this

theorem validateDstLoop_continue {α : Type} [DecidableEq α] (tid : Nat)
    (ref : List α) :
    ∀ (outs : List (List α)) (d : Nat),
      validateDstLoop true tid ref d outs =
        ⟨(outs.enumFrom d).flatMap
            (fun p => (specCompIndices ref p.2).map (fun i => (p.1, i))),
          (outs.enumFrom d).filterMap
            (fun p => (firstMismatchZ (List.zip ref p.2)).map
              (fun m => (tid, p.1, m.1, m.2.1, m.2.2))),
          false⟩ := by
  intro outs
  induction outs with
  | nil => intro d; rfl
  | cons out rest ih =>
    intro d
    simp only [validateDstLoop, scanMismatch_zero_fst, scanMismatch_zero_snd]
    rcases hm : firstMismatchZ (List.zip ref out) with _ | m
    · simp [ih (d+1), List.enumFrom_cons, List.flatMap_cons, List.filterMap_cons, hm]
    · simp [ih (d+1), List.enumFrom_cons, List.flatMap_cons, List.filterMap_cons, hm]

/-- Counterexample for C7 as stated: a Transfer with two destination
buffers, both mismatching the one-element reference `[0]` at index 0, in
continue-on-error mode.  The first mismatch is found at comparison
`(destination 0, element 0)`, yet the validator still performs the
comparison `(destination 1, element 0)` and issues a second report — it
does not skip all remaining elementwise comparisons for the Transfer, only
those of the current destination buffer. -/
theorem validateDst_counterexample :
    (validateDst true 0 [0] [[1], [1]] : ValidationTrace Nat).aborted = false ∧
    (validateDst true 0 ([0] : List Nat) [[1], [1]]).reports =
      [(0, 0, 0, 1, 0), (0, 1, 0, 1, 0)] ∧
    (validateDst true 0 ([0] : List Nat) [[1], [1]]).comparisons = [(0, 0), (1, 0)] ∧
    (validateDst true 0 ([0] : List Nat) [[1], [1]]).comparisons ≠ [(0, 0)] := by
  decide

/-- C7 amended: in continue-on-error mode, `Transfer::ValidateDst` never
aborts the process, and for each destination buffer independently it
compares elements in order up to and including the buffer's first mismatch,
reporting that mismatch with the Transfer's identity, the offending index,
and the actual vs. expected values, then skips that buffer's remaining
elementwise comparisons and continues with the Transfer's next destination
buffer. -/
theorem validateDst_continue_per_destination {α : Type} [DecidableEq α]
    (tid : Nat) (ref : List α) (outputs : List (List α)) :
    validateDst true tid ref outputs =
      ⟨outputs.enum.flatMap
          (fun p => (specCompIndices ref p.2).map (fun i => (p.1, i))),
        outputs.enum.filterMap
          (fun p => (firstMismatchZ (List.zip ref p.2)).map
            (fun m => (tid, p.1, m.1, m.2.1, m.2.2))),
        false⟩ :=
  validateDstLoop_continue tid ref outputs 0

/-! ## Theorems: warmup iterations and timing accumulation -/

theorem foldl_tally_neg (deltas : Int → Rat) :
    ∀ (l : List Int) (s : Nat × Rat), (∀ x ∈ l, x < 0) →
      l.foldl (fun s it => iterationTally it (deltas it) s) s = s := by
  intro l
  induction l with
  | nil => intro s _; rfl
  | cons x l ih =>
    intro s h
    have hx : x < 0 := h x (List.mem_cons_self x l)
    have hstep : iterationTally x (deltas x) s = s := by
      unfold iterationTally
      rw [if_neg (by omega : ¬ (0 : Int) ≤ x)]
    rw [List.foldl_cons, hstep]
    exact ih s (fun y hy => h y (List.mem_cons_of_mem x hy))

theorem foldl_tally_nonneg (deltas : Int → Rat) :
    ∀ (l : List Int) (s : Nat × Rat), (∀ x ∈ l, 0 ≤ x) →
      l.foldl (fun s it => iterationTally it (deltas it) s) s =
        (s.1 + l.length, s.2 + (l.map deltas).sum) := by
  intro l
  induction l with
  | nil => intro s _; simp
  | cons x l ih =>
    intro s h
    have hx : (0 : Int) ≤ x := h x (List.mem_cons_self x l)
    have hstep : iterationTally x (deltas x) s = (s.1 + 1, s.2 + deltas x) := by
      unfold iterationTally
      rw [if_pos hx]
    rw [List.foldl_cons, hstep,
      ih (s.1 + 1, s.2 + deltas x) (fun y hy => h y (List.mem_cons_of_mem x hy))]
    simp only [List.length_cons, List.map_cons, List.sum_cons, Prod.mk.injEq]
    constructor
    · omega
    · rw [add_assoc]

/-- C9: `RunTransfer` leaves all timing state untouched on warmup
iterations — the Transfers' accumulated `transferTime`, their per-iteration
samples, and the executor group's `totalTime` are modified only when the
iteration index is ≥ 0 (first conjunct), the iteration-loop bookkeeping of
`ExecuteTransfers` is likewise unchanged by a negative iteration index
(second conjunct), and over a fixed-count run with `W` warmups and `K`
timed iterations exactly the `K` iterations with index ≥ 0 contribute to
the timed-iteration count and to the accumulated CPU time (third
conjunct). -/
theorem warmup_iterations_no_timing :
    (∀ (exeType : ExeType) (ss si : Bool) (iteration : Int)
        (oracle : TimingOracle) (tIdx : Nat) (st : ExeTiming), iteration < 0 →
        runTransferTiming exeType ss si iteration oracle tIdx st = st) ∧
    (∀ (iteration : Int) (delta : Rat) (s : Nat × Rat), iteration < 0 →
        iterationTally iteration delta s = s) ∧
    (∀ (W K : Nat) (deltas : Int → Rat),
        (runIterationLoop W K deltas).1 = K ∧
        (runIterationLoop W K deltas).2 =
          ((List.range K).map (fun i => deltas (Int.ofNat i))).sum) := by
  refine ⟨?_, ?_, ?_⟩
  · intro exeType ss si iteration oracle tIdx st hneg
    have h0 : ¬ (0 : Int) ≤ iteration := by omega
    cases exeType <;> simp [runTransferTiming, h0]
  · intro iteration delta s hneg
    unfold iterationTally
    rw [if_neg (by omega : ¬ (0 : Int) ≤ iteration)]
  · intro W K deltas
    have hsplit : List.range (W + K) = List.range W ++ (List.range K).map (W + ·) :=
      List.range_add W K
    have hneg : ∀ x ∈ (List.range W).map (fun k => Int.ofNat k - Int.ofNat W),
        x < 0 := by
      intro x hx
      rcases List.mem_map.mp hx with ⟨k, hk, hkx⟩
      have hkW := List.mem_range.mp hk
      subst hkx
      show Int.ofNat k - Int.ofNat W < 0
      simp only [Int.ofNat_eq_natCast]
      omega
    have hfold :
        runIterationLoop W K deltas =
          (((List.range K).map (W + ·)).map
              (fun k => Int.ofNat k - Int.ofNat W)).foldl
            (fun s it => iterationTally it (deltas it) s) (0, 0) := by
      unfold runIterationLoop
      rw [hsplit, List.map_append, List.foldl_append,
        foldl_tally_neg deltas ((List.range W).map (fun k => Int.ofNat k - Int.ofNat W))
          (0, 0) hneg]
    have hl2 : (((List.range K).map (W + ·)).map
          (fun k => Int.ofNat k - Int.ofNat W)) =
        (List.range K).map (fun i => Int.ofNat i) := by
      rw [List.map_map]
      apply List.map_congr_left
      intro x _
      simp only [Function.comp_apply]
      show Int.ofNat (W + x) - Int.ofNat W = Int.ofNat x
      simp only [Int.ofNat_eq_natCast]
      push_cast
      omega
    have hnn : ∀ x ∈ (List.range K).map (fun i => Int.ofNat i), (0 : Int) ≤ x := by
      intro x hx
      rcases List.mem_map.mp hx with ⟨k, hk, hkx⟩
      subst hkx
      exact Int.ofNat_nonneg k
    rw [hfold, hl2,
      foldl_tally_nonneg deltas ((List.range K).map (fun i => Int.ofNat i)) (0, 0) hnn]
    constructor
    · simp
    · simp only [List.map_map]
      rw [zero_add]
      congr 1

/-- Witness for C9: a warmup call (`iteration = -1`) of a CPU-executor
`RunTransfer` leaves a concrete timing state unchanged. -/
theorem warmup_iterations_no_timing_witness :
    runTransferTiming ExeType.EXE_CPU false false (-1) ⟨1, [2], 3⟩ 0
        ⟨[5], [[]], 0⟩ = ⟨[5], [[]], 0⟩ :=
  warmup_iterations_no_timing.1 ExeType.EXE_CPU false false (-1) ⟨1, [2], 3⟩ 0
    ⟨[5], [[]], 0⟩ (by decide)

/-! ## Theorems: combined-stream parameter merging -/

/-- C4 (bug evaluation): on the first `ExecuteTransfers` invocation, the
interleaved merge of a group with Transfers `[[10, 20], [30]]` records
`subExecIdx` positions that index exactly each Transfer's own units (first
conjunct).  But the interleaved and random branches never clear
`subExecIdx` (only the sequential branch does), so on a second invocation
with the same Transfer objects — as happens in the `N`-range sweep of
`main`, which calls `ExecuteTransfers` repeatedly on one `transfers`
vector — transfer 0's recorded positions become `[0, 2, 0, 2]`: the stale
first-invocation entries accumulate, the list no longer indexes transfer
0's units exactly once each, contradicting the claim (and the spec's
"exact 1:1 coverage"). -/
theorem subExecIdx_stale_across_invocations :
    (((orderingPhase [[10, 20], [30]] [[], []] true BlockOrder.interleaved
          []).2.getD 0 []).map
        (fun pos =>
          (mergedParams [[10, 20], [30]] 0
              (orderingPhase [[10, 20], [30]] [[], []] true BlockOrder.interleaved
                []).1).getD pos 0)).Perm
      (([[10, 20], [30]] : List (List Nat)).getD 0 []) ∧
    ¬ (((orderingPhase [[10, 20], [30]]
            (orderingPhase [[10, 20], [30]] [[], []] true BlockOrder.interleaved
              []).2 true BlockOrder.interleaved []).2.getD 0 []).map
          (fun pos =>
            (mergedParams [[10, 20], [30]] 0
                (orderingPhase [[10, 20], [30]]
                    (orderingPhase [[10, 20], [30]] [[], []] true
                      BlockOrder.interleaved []).2 true BlockOrder.interleaved
                  []).1).getD pos 0)).Perm
        (([[10, 20], [30]] : List (List Nat)).getD 0 []) ∧
    (orderingPhase [[10, 20], [30]]
        (orderingPhase [[10, 20], [30]] [[], []] true BlockOrder.interleaved
          []).2 true BlockOrder.interleaved []).2.getD 0 [] = [0, 2, 0, 2] := by
  decide

end TransferBench
